import Mathlib

/-!
Verification of the nginx configuration front end (lexer, parser, include
resolver) of the caddyserver/nginx-adapter repository, as a shallow embedding
in Lean.  The definitions below are direct translations of the Go source:
the lexer `nextToken` state machine, the recursive-descent parser
(`nextBlock`/`next`), and the include resolver (`doInclude`,
`doSingleInclude`).  External collaborators (the filesystem, Go's
`path/filepath` library) are modelled explicitly and marked as such.
-/

namespace NginxConf

/-- A lexical token (lexer source, type `token`): source file, line, text. -/
structure token where
  file : String
  line : Nat
  text : String
deriving DecidableEq

/-- Go `unicode.IsSpace`, restricted to Latin-1 code points (the claims and all
inputs in this development use only ASCII whitespace). -/
def isSpaceCh (c : Char) : Bool :=
  c == ' ' || c == '\t' || c == '\n' || c == '\x0b' || c == '\x0c' || c == '\r' ||
    c == '\x85' || c == '\xa0'

/-- The body of the lexer's `nextToken` (lexer source, lines 62-148).
State threaded explicitly: `inp` is the unread input (the `bufio.Reader`),
`file`/`line` are the lexer fields `l.file`/`l.line`, and `tok` is the
persistent field `l.token` (its `file`/`line` are only overwritten by the
first-character stamping step; `makeToken` overwrites only `text`).
The locals `val`, `comment`, `escaped`, `quoted` are the per-call variables.
Returns (emitted token if any, remaining input, new line counter, new `l.token`).
The `UnreadRune` on a `;` following a nonempty buffer is modelled by returning
the `;` as part of the remaining input. -/
def nextTokenAux : List Char → String → Nat → token → List Char → Bool → Bool → Option Char →
    Option token × List Char × Nat × token
  | [], _, line, tok, val, _, _, _ =>
    -- end of input: emit the pending token if the buffer is nonempty
    if val.isEmpty then (none, [], line, tok)
    else
      let t := { tok with text := String.mk val }
      (some t, [], line, t)
  | ch :: rest, file, line, tok, val, comment, escaped, quoted =>
    match quoted with
    | some q =>
      if !escaped && ch == '\\' then
        nextTokenAux rest file line tok val comment true (some q)
      else if !escaped && ch == q then
        let t := { tok with text := String.mk val }
        (some t, rest, line, t)
      else
        let line' := if ch == '\n' then line + 1 else line
        -- escaping is honored only for the quote character itself
        let val' := if escaped && ch != q then val ++ ['\\', ch] else val ++ [ch]
        nextTokenAux rest file line' tok val' comment false (some q)
    | none =>
      if isSpaceCh ch then
        if ch == '\r' then
          nextTokenAux rest file line tok val comment escaped none
        else
          let line' := if ch == '\n' then line + 1 else line
          let comment' := if ch == '\n' then false else comment
          if val.isEmpty then
            nextTokenAux rest file line' tok val comment' escaped none
          else
            let t := { tok with text := String.mk val }
            (some t, rest, line', t)
      else if ch == ';' then
        if val.isEmpty then
          -- a bare `;` becomes its own token; note: no file/line stamping here
          let t := { tok with text := String.mk [';'] }
          (some t, rest, line, t)
        else
          -- UnreadRune: the `;` is re-examined on the next call
          let t := { tok with text := String.mk val }
          (some t, ch :: rest, line, t)
      else
        let comment₂ := if ch == '#' then true else comment
        if comment₂ then
          nextTokenAux rest file line tok val comment₂ escaped none
        else if val.isEmpty then
          -- the first character buffered for a new token stamps file/line
          let tok' : token := { file := file, line := line, text := "" }
          if ch == '"' || ch == '\'' then
            nextTokenAux rest file line tok' val comment₂ escaped (some ch)
          else
            nextTokenAux rest file line tok' (val ++ [ch]) comment₂ escaped none
        else
          nextTokenAux rest file line tok (val ++ [ch]) comment₂ escaped none

/-- The `tokenize` loop (lexer source, lines 24-38): repeatedly call
`nextToken`, collecting `l.token` after each successful call.  Each successful
call consumes at least one input character, so `input.length + 1` rounds of
fuel always suffice (`tokenizeFuel_irrel` below). -/
def tokenizeFuel : Nat → List Char → String → Nat → token → List token
  | 0, _, _, _, _ => []
  | fuel + 1, inp, file, line, tok =>
    match nextTokenAux inp file line tok [] false false none with
    | (none, _, _, _) => []
    | (some t, rest, line', tok') => t :: tokenizeFuel fuel rest file line' tok'

/-- `tokenize` (lexer source, lines 24-38): the lexer is created with the
fixed name "nginx.conf" and line counter 1; `l.token` starts at its zero
value. -/
def tokenize (input : String) : List token :=
  tokenizeFuel (input.length + 1) input.data "nginx.conf" 1
    { file := "", line := 0, text := "" }

/-- `allTokens` (parse.go:224-230): lex the whole input and overwrite every
token's `file` (but not its `line`) with the given filename. -/
def allTokens (filename : String) (input : String) : List token :=
  (tokenize input).map fun t => { t with file := filename }

/-! ## Path utilities (models of Go `path/filepath` on Unix) -/

/-- Split a character list at every `/`. -/
def splitSlash : List Char → List (List Char)
  | [] => [[]]
  | c :: rest =>
    if c = '/' then [] :: splitSlash rest
    else
      match splitSlash rest with
      | [] => [[c]]
      | comp :: comps => (c :: comp) :: comps

/-- Component processing of Go `path.Clean`: drop empty and `.` components;
`..` pops the previous component when one is available, is dropped at the root
of a rooted path, and is kept at the head of a relative path.  `out` holds the
processed components in reverse order. -/
def cleanComps (rooted : Bool) : List (List Char) → List (List Char) → List (List Char)
  | out, [] => out.reverse
  | out, comp :: comps =>
    if comp = [] ∨ comp = ['.'] then cleanComps rooted out comps
    else if comp = ['.', '.'] then
      match out with
      | [] =>
        if rooted then cleanComps rooted [] comps
        else cleanComps rooted [['.', '.']] comps
      | top :: outRest =>
        if top = ['.', '.'] then cleanComps rooted (comp :: out) comps
        else cleanComps rooted outRest comps
    else cleanComps rooted (comp :: out) comps

/-- Join components with `/`. -/
def joinComps : List (List Char) → List Char
  | [] => []
  | [c] => c
  | c :: cs => c ++ '/' :: joinComps cs

/-- Model of Go `filepath.Clean` on Unix: lexical path normalization
(the path of an empty string is `.`, repeated separators and `.` components
are dropped, `..` components consume the preceding component, a rooted path
never escapes the root, and the cleaned path of something that vanishes
entirely is `.`). -/
def clean (p : String) : String :=
  if p = "" then "."
  else
    let rooted : Bool := p.data.head? = some '/'
    let body := joinComps (cleanComps rooted [] (splitSlash p.data))
    if rooted then String.mk ('/' :: body)
    else if body = [] then "." else String.mk body

/-- Model of Go `filepath.Join` for two nonempty elements (the only uses in
`doInclude`): join with `/` and clean. -/
def joinPath (a b : String) : String := clean (a ++ "/" ++ b)

/-- Model of Go `filepath.Join` for three nonempty elements. -/
def joinPath3 (a b c : String) : String := clean (a ++ "/" ++ b ++ "/" ++ c)

/-- Go `strings.Count` for a one-character substring. -/
def countCh (s : String) (c : Char) : Nat := (s.data.filter (· == c)).length

/-- Go `strings.Contains` for a one-character substring. -/
def containsCh (s : String) (c : Char) : Bool := s.data.contains c

/-- Go `filepath.IsAbs` on Unix. -/
def isAbs (s : String) : Bool :=
  match s.data with
  | '/' :: _ => true
  | _ => false

/-! ## Filesystem model and glob

The filesystem is an external collaborator of the include resolver (Go `os`
and `filepath.Glob`).  It is modelled as a finite association list from
absolute file paths to file contents; only regular files are modelled
(directories exist implicitly and are never resolved by the claims). -/

/-- Filesystem state: (path, contents) pairs for every regular file. -/
abbrev FS := List (String × String)

/-- Whether a path exists in the filesystem (models a successful `os.Stat` /
`os.Lstat`). -/
def fsHas (fs : FS) (path : String) : Bool := fs.any (fun e => e.1 == path)

/-- Open-and-read of a file (models `os.Open` + `ioutil.ReadAll`). -/
def fsRead (fs : FS) (path : String) : Option String :=
  (fs.find? (fun e => e.1 == path)).map (·.2)

/-- Go `filepath.hasMeta` on Unix: the pattern contains a glob
metacharacter. -/
def hasMeta (path : String) : Bool :=
  path.data.any (fun c => c == '*' || c == '?' || c == '[' || c == '\\')

/-- One escaped character inside a character class (Go `path.getEsc`):
a bare `-` or `]` is rejected, a backslash escapes the next character. -/
def getEsc : List Char → Option (Char × List Char)
  | [] => none
  | c :: rest =>
    if c = '-' ∨ c = ']' then none
    else if c = '\\' then
      match rest with
      | [] => none
      | c2 :: rest2 => some (c2, rest2)
    else some (c, rest)

/-- Parse the ranges of a character class after the `[` (and optional `^`)
up to the closing `]` (the class scanning of Go `path.Match`).  `n` counts the
ranges seen so far: a `]` closes the class only after at least one range.
Returns `none` on a malformed class.  `fuel` bounds the recursion; every step
consumes at least one character, so `l.length` rounds always suffice. -/
def classRangesF : Nat → Nat → List Char → Option (List (Char × Char) × List Char)
  | 0, _, _ => none
  | _, _, [] => none
  | fuel + 1, n, c :: rest =>
    if c = ']' then
      if n > 0 then some ([], rest) else none
    else
      match getEsc (c :: rest) with
      | none => none
      | some (lo, rest1) =>
        match rest1 with
        | '-' :: rest2 =>
          match getEsc rest2 with
          | none => none
          | some (hi, rest3) =>
            match classRangesF fuel (n + 1) rest3 with
            | none => none
            | some (rs, rem) => some ((lo, hi) :: rs, rem)
        | _ =>
          match classRangesF fuel (n + 1) rest1 with
          | none => none
          | some (rs, rem) => some ((lo, lo) :: rs, rem)

def classRanges (n : Nat) (l : List Char) : Option (List (Char × Char) × List Char) :=
  classRangesF l.length n l

/-- Model of Go `path.Match`: `*` matches any (possibly empty) run of
non-separator characters, `?` one non-separator character, `[...]` a character
class (with `^` negation and `-` ranges), `\\` escapes the next pattern
character, any other character matches itself.  `none` models Go's
`ErrBadPattern`: it is raised when matching *reaches* a malformed part of the
pattern — an unterminated character class, or a trailing backslash with name
characters left — while, as in Go's `matchChunk`, a malformed tail that is
never reached (because the name already diverged or is exhausted) reports no
error.  `fuel` bounds the recursion; every step strictly decreases
`pat.length + name.length`, so `pat.length + name.length + 1` rounds always
suffice. -/
def matchPatF : Nat → List Char → List Char → Option Bool
  | 0, _, _ => none
  | fuel + 1, pat, name =>
    match pat, name with
    | [], [] => some true
    | [], _ :: _ => some false
    | '*' :: ps, nm =>
      match matchPatF fuel ps nm with
      | none => none
      | some true => some true
      | some false =>
        match nm with
        | [] => some false
        | c :: ns =>
          if c = '/' then some false
          else matchPatF fuel ('*' :: ps) ns
    | '?' :: ps, nm =>
      match nm with
      | [] => some false
      | c :: ns => if c = '/' then some false else matchPatF fuel ps ns
    | '[' :: ps, nm =>
      match nm with
      | [] => some false
      | c :: ns =>
        let neg : Bool := ps.head? = some '^'
        let body := if ps.head? = some '^' then ps.tail else ps
        match classRanges 0 body with
        | none => none
        | some (rs, rem) =>
          let inClass : Bool := rs.any (fun r => decide (r.1 ≤ c) && decide (c ≤ r.2))
          if inClass = neg then some false else matchPatF fuel rem ns
    | '\\' :: ps, nm =>
      match nm with
      | [] => some false
      | c :: ns =>
        match ps with
        | [] => none
        | p :: ps2 => if p = c then matchPatF fuel ps2 ns else some false
    | p :: ps, nm =>
      match nm with
      | [] => some false
      | c :: ns => if p = c then matchPatF fuel ps ns else some false

def matchPat (pat name : List Char) : Option Bool :=
  matchPatF (pat.length + name.length + 1) pat name

/-- The per-entry scan of a glob pattern containing metacharacters: collect
the matching existing paths in FS order, aborting with Go's `ErrBadPattern`
as soon as matching some entry reaches a malformed part of the pattern
(Go `filepath.Glob` walks the directory entries and stops at the first
`Match` error). -/
def globScan (pat : List Char) : List (String × String) → Except String (List String)
  | [] => .ok []
  | e :: rest =>
    match matchPat pat e.1.data with
    | none => .error "syntax error in pattern"
    | some true =>
      match globScan pat rest with
      | .error msg => .error msg
      | .ok ms => .ok (e.1 :: ms)
    | some false => globScan pat rest

/-- Model of Go `filepath.Glob` over the FS model: a pattern without
metacharacters matches exactly itself when it exists (Go checks `os.Lstat`
and returns the pattern itself, never an error); a pattern with
metacharacters is matched against the existing paths, failing with
`ErrBadPattern` when matching an entry reaches a malformed part of the
pattern.  Go returns the matches of each directory sorted; the model returns
them in FS order (no claim depends on the order of multiple matches of a
single glob). -/
def glob (fs : FS) (pat : String) : Except String (List String) :=
  if hasMeta pat then globScan pat.data fs
  else if fsHas fs pat then .ok [pat] else .ok []

/-! ## Directive model and parser (parse.go) -/

/-- `Directive` (parse.go:232-244).  Go's `Block` is a possibly-nil slice;
a nil block and an empty block are indistinguishable, so `block` is a plain
list defaulting to `[]`. -/
structure Directive where
  params : List String := []
  block : List Directive := []
  file : String := ""
  line : Nat := 0

/-- `nginxParser` (parse.go:31-34): the token sequence and the read cursor. -/
structure nginxParser where
  tokens : List token
  cursor : Nat
deriving DecidableEq

/-- Outcomes other than success.  `eof` is Go's `io.EOF`; `patternErr` and
`importErr` are the `fmt.Errorf` failures of `doInclude`/`doSingleInclude`;
`globErr` is a `filepath.Glob` error (`ErrBadPattern`) propagated by
`doInclude` (parse.go:143-145 and 170-172); `panicked` models a Go runtime
panic (index or slice out of range); `fuelOut` is a model artifact making the
parser total (the Go code can run forever on include cycles) and is never the
value of any theorem here. -/
inductive PErr where
  | eof
  | panicked
  | patternErr (arg : String)
  | importErr (file : String)
  | globErr (msg : String)
  | fuelOut
deriving DecidableEq

instance {ε α : Type} [DecidableEq ε] [DecidableEq α] : DecidableEq (Except ε α) :=
  fun x y =>
    match x, y with
    | .error e1, .error e2 =>
      if h : e1 = e2 then .isTrue (congrArg Except.error h)
      else .isFalse (fun hh => h (Except.error.inj hh))
    | .error _, .ok _ => .isFalse (fun hh => Except.noConfusion hh)
    | .ok _, .error _ => .isFalse (fun hh => Except.noConfusion hh)
    | .ok a1, .ok a2 =>
      if h : a1 = a2 then .isTrue (congrArg Except.ok h)
      else .isFalse (fun hh => h (Except.ok.inj hh))

/-- The configuration-root directory (source constant nginx conf prefix,
parse.go:107; the Linux/Debian default — the solaris build tag overrides it,
which is out of the claims' scope). -/
def nginxConfRoot : String := "/etc/nginx"

/-- `nginxConfDirs` (parse.go:109-116). -/
def nginxConfDirs : List String :=
  ["conf.d/", "modules-available/", "modules-enabled/", "sites-available/",
   "sites-enabled/", "snippets/"]

/-- `nginxStdConfs` (parse.go:117-128). -/
def nginxStdConfs : List String :=
  ["fastcgi.conf", "fastcgi_params", "koi-utf", "koi-win", "mime.types",
   "nginx.conf", "proxy_params", "scgi_params", "uwsgi_params", "win-utf"]

/-- `doSingleInclude` (parse.go:200-219): open and fully read the file, then
lex it, tagging every token with the file's path.  A path absent from the FS
models every open/stat/read failure (directories are not modelled). -/
def doSingleInclude (fs : FS) (importFile : String) : Except PErr (List token) :=
  match fsRead fs importFile with
  | none => .error (.importErr importFile)
  | some contents => .ok (allTokens importFile contents)

/-- The loop of parse.go:179-185: lex every resolved file in order,
concatenating the token sequences; the first failure aborts. -/
def importAll (fs : FS) : List String → Except PErr (List token)
  | [] => .ok []
  | f :: rest =>
    match doSingleInclude fs f with
    | .error e => .error e
    | .ok ts =>
      match importAll fs rest with
      | .error e => .error e
      | .ok more => .ok (ts ++ more)

/-- The wildcard check of `doInclude` (parse.go:135-139): more than one `*`,
more than one `?`, or a `[` together with a `]`. -/
def wildcardReject (includeArg : String) : Bool :=
  countCh includeArg '*' > 1 || countCh includeArg '?' > 1 ||
    (containsCh includeArg '[' && containsCh includeArg ']')

/-- The subdirectory accumulation loop of `doInclude` (parse.go:167-175):
glob `root/<subdir>/<arg>` for every listed subdirectory in order, appending
all matches; a glob error aborts immediately (parse.go:171-172). -/
def subdirGlobs (fs : FS) (includeArg : String) :
    List String → Except String (List String)
  | [] => .ok []
  | v :: rest =>
    match glob fs (clean (joinPath3 nginxConfRoot v includeArg)) with
    | .error msg => .error msg
    | .ok ms =>
      match subdirGlobs fs includeArg rest with
      | .error msg => .error msg
      | .ok more => .ok (ms ++ more)

def subdirMatches (fs : FS) (includeArg : String) : Except String (List String) :=
  subdirGlobs fs includeArg nginxConfDirs

/-- The file resolution of `doInclude` (parse.go:140-176): an absolute
argument is glob-expanded directly — a glob error aborts (parse.go:143-145) —
keeping matches that still exist (parse.go:146-150); when that yields
nothing, a standard filename resolves under the root (with no existence
check), and the subdirectory glob matches are accumulated after it. -/
def resolveIncludeFiles (fs : FS) (includeArg : String) :
    Except String (List String) :=
  match (if isAbs includeArg then glob fs includeArg else .ok []) with
  | .error msg => .error msg
  | .ok absMatches =>
    let absFiles := absMatches.filter (fun v => fsHas fs v)
    if absFiles = [] then
      let stdFiles :=
        match nginxStdConfs.find? (fun v => v == includeArg) with
        | some v => [joinPath nginxConfRoot v]
        | none => []
      match subdirMatches fs includeArg with
      | .error msg => .error msg
      | .ok subs => .ok (stdFiles ++ subs)
    else .ok absFiles

/-- `doInclude` (parse.go:131-196).  On entry the cursor points at the include
path-argument token (the caller has just consumed the `include` token).
A `filepath.Glob` failure during resolution is returned as an error
(parse.go:143-145, 170-172).  `currentToken` (parse.go:36-38) indexing out of
range, and the two slice expressions of the splice (parse.go:188-189), panic
in Go when out of bounds; those are modelled as `.error .panicked`.  The
splice drops the tokens at `cursor-1`, `cursor` and `cursor+1` and rewinds
the cursor by one. -/
def doInclude (fs : FS) (p : nginxParser) : Except PErr nginxParser :=
  if h : p.cursor < p.tokens.length then
    let includeArg := clean (p.tokens[p.cursor]).text
    if wildcardReject includeArg then .error (.patternErr includeArg)
    else
      match resolveIncludeFiles fs includeArg with
      | .error msg => .error (.globErr msg)
      | .ok importedFiles =>
        match importAll fs importedFiles with
        | .error e => .error e
        | .ok importedTokens =>
          if p.cursor < 1 ∨ p.tokens.length < p.cursor + 2 then .error .panicked
          else
            .ok { tokens := p.tokens.take (p.cursor - 1) ++ importedTokens ++
                              p.tokens.drop (p.cursor + 2),
                  cursor := p.cursor - 1 }
  else .error .panicked

mutual

/-- `nextBlock` (parse.go:41-64): collect directives until the input or the
current block ends; `io.EOF` from `next` ends the block without error. -/
def nextBlock (fs : FS) : Nat → nginxParser → Except PErr (List Directive × nginxParser)
  | 0, _ => .error .fuelOut
  | fuel + 1, p =>
    if h : p.cursor < p.tokens.length then
      if (p.tokens[p.cursor]).text = "\x7d" then
        .ok ([], { p with cursor := p.cursor + 1 })
      else
        match next fs fuel p with
        | .error e => if e = .eof then .ok ([], p) else .error e
        | .ok (dir, p') =>
          match nextBlock fs fuel p' with
          | .error e => .error e
          | .ok (dirs, p'') => .ok (dir :: dirs, p'')
    else .ok ([], p)

/-- `next` (parse.go:67-104): fail with `io.EOF` when the cursor is already
exhausted, otherwise stamp a new directive from the token at the cursor and
run the parameter-collection loop. -/
def next (fs : FS) : Nat → nginxParser → Except PErr (Directive × nginxParser)
  | 0, _ => .error .fuelOut
  | fuel + 1, p =>
    if p.cursor = p.tokens.length then .error .eof
    else if h : p.cursor < p.tokens.length then
      nextLoop fs fuel p
        { params := [], block := [],
          file := (p.tokens[p.cursor]).file, line := (p.tokens[p.cursor]).line }
    else .error .panicked

/-- The `for` loop of `next` (parse.go:76-102): `;` ends the directive, `{`
parses a nested block, `include` runs the resolver, re-reads the token at the
cursor (parse.go:97 — a panic when the splice left the cursor out of range),
re-stamps the directive's file/line from it and collects it as a parameter;
any other token is collected as a parameter.  Running out of tokens returns
the directive collected so far. -/
def nextLoop (fs : FS) : Nat → nginxParser → Directive → Except PErr (Directive × nginxParser)
  | 0, _, _ => .error .fuelOut
  | fuel + 1, p, dir =>
    if h : p.cursor < p.tokens.length then
      let tkn := p.tokens[p.cursor]
      if tkn.text = ";" then .ok (dir, { p with cursor := p.cursor + 1 })
      else if tkn.text = "\x7b" then
        match nextBlock fs fuel { p with cursor := p.cursor + 1 } with
        | .error e => .error e
        | .ok (dirs, p') => .ok ({ dir with block := dirs }, p')
      else if tkn.text = "include" then
        match doInclude fs { p with cursor := p.cursor + 1 } with
        | .error e => .error e
        | .ok p' =>
          if h2 : p'.cursor < p'.tokens.length then
            let tkn2 := p'.tokens[p'.cursor]
            nextLoop fs fuel { p' with cursor := p'.cursor + 1 }
              { dir with file := tkn2.file, line := tkn2.line,
                         params := dir.params ++ [tkn2.text] }
          else .error .panicked
      else
        nextLoop fs fuel { p with cursor := p.cursor + 1 }
          { dir with params := dir.params ++ [tkn.text] }
    else .ok (dir, p)

end

/-- `parse` (parse.go:26-29): parse the whole token sequence as the main
context. -/
def parse (fuel : Nat) (fs : FS) (tokens : List token) : Except PErr (List Directive) :=
  (nextBlock fs fuel { tokens := tokens, cursor := 0 }).map Prod.fst

/-! ## Helper lemmas: lexer progress and fuel irrelevance -/

/-- The lexer never hands back more input than it was given (the only
non-suffix return, the `UnreadRune` on `;`, returns exactly the input it was
called on). -/
theorem nextTokenAux_rest_le (inp : List Char) :
    ∀ (f : String) (l : Nat) (t : token) (val : List Char) (c e : Bool)
      (q : Option Char),
      (nextTokenAux inp f l t val c e q).2.1.length ≤ inp.length := by
  induction inp with
  | nil =>
    intro f l t val c e q
    simp only [nextTokenAux]
    split <;> simp
  | cons ch rest ih =>
    intro f l t val c e q
    have hle : ∀ (f2 : String) (l2 : Nat) (t2 : token) (v2 : List Char) (c2 e2 : Bool)
        (q2 : Option Char),
        (nextTokenAux rest f2 l2 t2 v2 c2 e2 q2).2.1.length ≤ (ch :: rest).length := by
      intro f2 l2 t2 v2 c2 e2 q2
      have := ih f2 l2 t2 v2 c2 e2 q2
      simp only [List.length_cons]
      omega
    cases q with
    | some qc =>
      simp only [nextTokenAux]
      split_ifs <;>
        first
          | (simp only [List.length_cons]; omega)
          | exact hle _ _ _ _ _ _ _
    | none =>
      simp only [nextTokenAux]
      split_ifs <;>
        first
          | (simp only [List.length_cons]; omega)
          | exact hle _ _ _ _ _ _ _

/-- A call of the lexer starting with an empty buffer outside quotes consumes
at least one character whenever it emits a token: every branch on the first
character either emits at once (having consumed it) or continues on the tail,
and by `nextTokenAux_rest_le` the tail bound persists. -/
theorem nextTokenAux_emit_lt (ch : Char) (rest0 : List Char) (f : String) (l : Nat)
    (t : token) (c e : Bool) (tk : token) (rest : List Char) (l' : Nat) (tk' : token)
    (h : nextTokenAux (ch :: rest0) f l t [] c e none = (some tk, rest, l', tk')) :
    rest.length < (ch :: rest0).length := by
  have key : ∀ (f2 : String) (l2 : Nat) (t2 : token) (v2 : List Char) (c2 e2 : Bool)
      (q2 : Option Char),
      nextTokenAux rest0 f2 l2 t2 v2 c2 e2 q2 = (some tk, rest, l', tk') →
      rest.length < (ch :: rest0).length := by
    intro f2 l2 t2 v2 c2 e2 q2 hh
    have hle := nextTokenAux_rest_le rest0 f2 l2 t2 v2 c2 e2 q2
    rw [hh] at hle
    simp only [List.length_cons]
    exact Nat.lt_succ_of_le hle
  simp only [nextTokenAux, List.isEmpty_nil, if_true] at h
  split_ifs at h <;>
    first
      | exact key _ _ _ _ _ _ _ h
      | (simp only [Prod.mk.injEq] at h
         simp only [List.length_cons, ← h.2.1]
         omega)

/-- The fuel given to the tokenize loop is irrelevant as soon as it exceeds
the input length (each emitted token consumes at least one character), so
`tokenize`'s `input.length + 1` is always enough: the model never cuts the
Go loop short. -/
theorem tokenizeFuel_irrel (n : Nat) :
    ∀ (inp : List Char), inp.length ≤ n →
      ∀ (f1 f2 : Nat) (file : String) (l : Nat) (t : token),
        inp.length < f1 → inp.length < f2 →
        tokenizeFuel f1 inp file l t = tokenizeFuel f2 inp file l t := by
  induction n with
  | zero =>
    intro inp hlen f1 f2 file l t h1 h2
    have hnil : inp = [] := List.length_eq_zero.mp (Nat.le_zero.mp hlen)
    subst hnil
    obtain ⟨a, rfl⟩ := Nat.exists_eq_succ_of_ne_zero (Nat.pos_iff_ne_zero.mp h1)
    obtain ⟨b, rfl⟩ := Nat.exists_eq_succ_of_ne_zero (Nat.pos_iff_ne_zero.mp h2)
    simp [tokenizeFuel, nextTokenAux]
  | succ m ih =>
    intro inp hlen f1 f2 file l t h1 h2
    obtain ⟨a, rfl⟩ : ∃ k, f1 = k + 1 := Nat.exists_eq_succ_of_ne_zero (by omega)
    obtain ⟨b, rfl⟩ : ∃ k, f2 = k + 1 := Nat.exists_eq_succ_of_ne_zero (by omega)
    rcases hstep : nextTokenAux inp file l t [] false false none with ⟨ot, rest, l2, t2⟩
    cases ot with
    | none => simp only [tokenizeFuel, hstep]
    | some tk =>
      have hrest : rest.length < inp.length := by
        cases inp with
        | nil => simp [nextTokenAux] at hstep
        | cons ch r0 => exact nextTokenAux_emit_lt ch r0 _ _ _ _ _ _ _ _ _ hstep
      simp only [tokenizeFuel, hstep]
      congr 1
      exact ih rest (by omega) a b file l2 t2 (by omega) (by omega)

set_option maxRecDepth 4000 in
/-- When the remaining tokens contain none of `;`, `{`, `include`, the loop of
`next` collects all of them as parameters, in order, and ends at the end of
input without error (the lenient end-of-input behavior of parse.go:76-103). -/
theorem nextLoop_plain (fs : FS) :
    ∀ (fuel : Nat) (p : nginxParser) (dir : Directive),
      p.cursor ≤ p.tokens.length →
      p.tokens.length - p.cursor < fuel →
      (∀ t ∈ p.tokens.drop p.cursor, t.text ≠ ";" ∧ t.text ≠ "\x7b" ∧ t.text ≠ "include") →
      nextLoop fs fuel p dir =
        .ok ({ dir with params := dir.params ++ (p.tokens.drop p.cursor).map token.text },
             { p with cursor := p.tokens.length }) := by
  intro fuel
  induction fuel with
  | zero => intro p dir hle hfuel hord; omega
  | succ n ih =>
    intro p dir hle hfuel hord
    by_cases h : p.cursor < p.tokens.length
    · have hdrop : p.tokens.drop p.cursor =
          p.tokens[p.cursor] :: p.tokens.drop (p.cursor + 1) :=
        List.drop_eq_getElem_cons h
      have hmem : p.tokens[p.cursor] ∈ p.tokens.drop p.cursor := by
        rw [hdrop]; exact List.mem_cons_self _ _
      obtain ⟨hs, hb, hi⟩ := hord _ hmem
      have hsub : ∀ t ∈ p.tokens.drop (p.cursor + 1),
          t.text ≠ ";" ∧ t.text ≠ "\x7b" ∧ t.text ≠ "include" := by
        intro t ht
        exact hord t (by rw [hdrop]; exact List.mem_cons_of_mem _ ht)
      simp only [nextLoop]
      rw [dif_pos h, if_neg hs, if_neg hb, if_neg hi]
      rw [ih { p with cursor := p.cursor + 1 }
            { dir with params := dir.params ++ [(p.tokens[p.cursor]).text] }
            (by simpa using h) (by simp; omega) (by simpa using hsub)]
      dsimp only
      rw [hdrop]
      simp only [List.map_cons, List.append_assoc, List.singleton_append]
    · have hc : p.cursor = p.tokens.length := by omega
      have hdrop : p.tokens.drop p.cursor = [] := List.drop_eq_nil_of_le (by omega)
      rcases p with ⟨toks, cur⟩
      rcases dir with ⟨ps, bs, fl, ln⟩
      simp only [nextLoop]
      rw [dif_neg h]
      simp_all

/-! ## Helper lemmas: parser error shapes -/

/-- `doSingleInclude` can only fail with an import error naming its file. -/
theorem doSingleInclude_error (fs : FS) (f : String) (e : PErr)
    (h : doSingleInclude fs f = .error e) : e = .importErr f := by
  simp only [doSingleInclude] at h
  split at h <;> simp_all

/-- `importAll` can only fail with an import error. -/
theorem importAll_error (fs : FS) :
    ∀ (l : List String) (e : PErr), importAll fs l = .error e → ∃ f, e = .importErr f := by
  intro l
  induction l with
  | nil => intro e h; simp [importAll] at h
  | cons f rest ih =>
    intro e h
    simp only [importAll] at h
    split at h
    · rename_i es hs
      rw [Except.error.injEq] at h
      subst h
      exact ⟨f, doSingleInclude_error fs f es hs⟩
    · split at h
      · rename_i es hs2
        rw [Except.error.injEq] at h
        subst h
        exact ih es hs2
      · simp at h

/-- `doInclude` never fails with `io.EOF`. -/
theorem doInclude_ne_eof (fs : FS) (p : nginxParser) : doInclude fs p ≠ .error .eof := by
  intro h
  simp only [doInclude] at h
  split at h
  · split at h
    · simp at h
    · split at h
      · simp at h
      · split at h
        · rename_i e' he'
          rw [Except.error.injEq] at h
          obtain ⟨f, hf⟩ := importAll_error fs _ e' he'
          simp [hf] at h
        · split at h <;> simp at h
  · simp at h

/-- `nextBlock` never fails with `io.EOF` (it converts the `io.EOF` of `next`
into an ordinary end of block). -/
theorem nextBlock_ne_eof (fs : FS) :
    ∀ (fuel : Nat) (p : nginxParser), nextBlock fs fuel p ≠ .error .eof := by
  intro fuel
  induction fuel with
  | zero => intro p h; simp [nextBlock] at h
  | succ n ih =>
    intro p h
    simp only [nextBlock] at h
    split at h
    · split at h
      · simp at h
      · split at h
        · split at h
          · simp at h
          · rename_i hne
            rw [Except.error.injEq] at h
            exact hne h
        · split at h
          · rename_i e2 he2
            rw [Except.error.injEq] at h
            subst h
            exact ih _ he2
          · simp at h
    · simp at h

/-- `nextLoop` never fails with `io.EOF`. -/
theorem nextLoop_ne_eof (fs : FS) :
    ∀ (fuel : Nat) (p : nginxParser) (dir : Directive),
      nextLoop fs fuel p dir ≠ .error .eof := by
  intro fuel
  induction fuel with
  | zero => intro p dir h; simp [nextLoop] at h
  | succ n ih =>
    intro p dir h
    simp only [nextLoop] at h
    split at h
    · split at h
      · simp at h
      · split at h
        · -- `{`: a nested block
          split at h
          · rename_i e2 he2
            rw [Except.error.injEq] at h
            subst h
            exact nextBlock_ne_eof fs n _ he2
          · simp at h
        · split at h
          · -- `include`
            split at h
            · rename_i e2 he2
              rw [Except.error.injEq] at h
              subst h
              exact doInclude_ne_eof fs _ he2
            · split at h
              · exact ih _ _ h
              · simp at h
          · exact ih _ _ h
    · simp at h


/-! ## Claims -/

/-- C10 (confirmed): when the lexer emits a `;` token while the token buffer
is empty, the token's `file`/`line` are not stamped at the semicolon's
position: the emitted token keeps whatever `file`/`line` the lexer's
persistent token field holds — the stamp of the previously emitted token, or
the zero values (`""`, `0`) when no token was emitted before — because the
first-character stamping step is bypassed on that path.  The first conjunct is
the general step property (for any stored token `tok`, any current position
`f`/`l`); the second shows the zero values on a leading `;`; the third shows
a `;` on line 2 carrying the line-1 stamp of the previous token. -/
theorem c10_semicolon_not_stamped :
    (∀ (rest : List Char) (f : String) (l : Nat) (tok : token) (cm e : Bool),
      nextTokenAux (';' :: rest) f l tok [] cm e none =
        (some { tok with text := ";" }, rest, l, { tok with text := ";" }))
    ∧ tokenize ";" = [{ file := "", line := 0, text := ";" }]
    ∧ tokenize "a\n;" = [⟨"nginx.conf", 1, "a"⟩, ⟨"nginx.conf", 1, ";"⟩] := by
  refine ⟨?_, by decide, by decide⟩
  intro rest f l tok cm e
  simp [nextTokenAux, isSpaceCh]

/-- C8 (confirmed): inside a quoted token, escaping is honored only for the
active quote character: a backslash followed by the quote character buffers
the quote alone, a backslash followed by any other character buffers the
backslash and that character literally (the first conjunct, a two-step
unfolding of the lexer on `\\` followed by `c`); in particular
`foo "a\nb";` yields a second token whose text is the four characters
`a`, `\\`, `n`, `b` (the second conjunct). -/
theorem c8_quote_escape :
    (∀ (q c : Char) (rest val : List Char) (f : String) (l : Nat) (tok : token)
      (cm : Bool),
      nextTokenAux ('\\' :: c :: rest) f l tok val cm false (some q) =
        nextTokenAux rest f (if c = '\n' then l + 1 else l) tok
          (val ++ if c = q then [c] else ['\\', c]) cm false (some q))
    ∧ tokenize "foo \"a\\nb\";" =
        [⟨"nginx.conf", 1, "foo"⟩, ⟨"nginx.conf", 1, "a\\nb"⟩,
         ⟨"nginx.conf", 1, ";"⟩] := by
  refine ⟨?_, by decide⟩
  intro q c rest val f l tok cm
  by_cases hc : c = q <;> by_cases hn : c = '\n' <;>
    simp [nextTokenAux, hc, hn, apply_ite (fun x : List Char => val ++ x)]

/-- C5 counterexample: the claim predicts that a `;` inside a comment is
discarded and that tokenizing an input equals tokenizing the input with each
comment removed.  On the input `#;` the code emits the `;` as a token (the
`;` branch of the lexer precedes the comment check), while the
comment-stripped input (the empty string) yields no tokens. -/
theorem c5_comment_semicolon_counterexample :
    tokenize "#;" = [{ file := "", line := 0, text := ";" }] ∧
    tokenize "" = [] ∧ tokenize "#;" ≠ tokenize "" :=
  ⟨by decide, by decide, by decide⟩

/-- C5 amended: once `#` outside quotes sets the comment flag, a subsequent
non-whitespace character other than `;` is discarded without buffering
(first conjunct), and a line feed clears the flag, flushing any pending
token (second conjunct); but a `;` read while the comment flag is set is
handled by the semicolon rule before the comment check (see the
counterexample), so the comment-stripping token-stream equivalence fails in
general. -/
theorem c5_comment_discard_amended :
    ∀ (c : Char) (rest val : List Char) (f : String) (l : Nat) (tok : token)
      (e : Bool),
      (isSpaceCh c = false → c ≠ ';' →
        nextTokenAux (c :: rest) f l tok val true e none =
          nextTokenAux rest f l tok val true e none)
      ∧ (nextTokenAux ('\n' :: rest) f l tok val true e none =
          if val.isEmpty then nextTokenAux rest f (l + 1) tok val false e none
          else (some { tok with text := String.mk val }, rest, l + 1,
                { tok with text := String.mk val })) := by
  intro c rest val f l tok e
  constructor
  · intro hsp hsem
    simp [nextTokenAux, hsp, hsem]
  · have h1 : isSpaceCh '\n' = true := by decide
    have h2 : ('\n' == '\r') = false := by decide
    have h3 : ('\n' == '\n') = true := by decide
    simp only [nextTokenAux, h1, h2, h3, if_true, if_false, Bool.false_eq_true,
      Bool.true_eq_false, ite_true, ite_false]

/-- C5 witness: the amended step property at a concrete comment character. -/
theorem c5_comment_discard_witness :
    nextTokenAux ['x'] "nginx.conf" 1 ⟨"", 0, ""⟩ [] true false none =
      nextTokenAux [] "nginx.conf" 1 ⟨"", 0, ""⟩ [] true false none :=
  (c5_comment_discard_amended 'x' [] [] "nginx.conf" 1 ⟨"", 0, ""⟩ false).1
    (by decide) (by decide)

/-- C2 (code bug): the claim — and §5/§7 of the spec — promise that the parse
either completes or returns an error, every token access being in bounds.
The code violates this: on the one-statement input `include` (whatever the
filesystem holds), `next` consumes the `include` token and `doInclude` reads
`currentToken()` = `p.tokens[p.cursor]` with the cursor already past the end
(parse.go:37), a Go index-out-of-range panic, modelled as `.error .panicked`.
The extra fuel argument shows the result for every sufficient fuel. -/
theorem c2_parse_panics_on_dangling_include (fs : FS) (fuel : Nat) :
    parse (fuel + 1 + 1 + 1) fs (tokenize "include") = .error .panicked := by
  have ht : tokenize "include" = [⟨"nginx.conf", 1, "include"⟩] := by decide
  simp only [parse, ht]
  simp [nextBlock, next, nextLoop, doInclude, Except.map]

/-- C9 (confirmed): a token sequence that ends mid-directive — the remaining
tokens contain no terminating `;`, no `{` (and no `include`, which would
splice) — is parsed leniently: `next` returns all remaining token texts as
the parameters of a complete final directive, stamped from the first
remaining token, with no error (first conjunct); and `next` fails with
end-of-input exactly when the cursor is already exhausted when the directive
starts (second conjunct — `nextLoop`, `nextBlock` and `doInclude` never
produce `io.EOF`, so the entry check is the only source). -/
theorem c9_eof_mid_directive (fs : FS) (p : nginxParser) (fuel : Nat)
    (hfuel : p.tokens.length - p.cursor + 2 ≤ fuel) :
    ((∀ t ∈ p.tokens.drop p.cursor, t.text ≠ ";" ∧ t.text ≠ "\x7b" ∧ t.text ≠ "include") →
      p.cursor < p.tokens.length →
      next fs fuel p =
        .ok ({ params := (p.tokens.drop p.cursor).map token.text, block := [],
               file := ((p.tokens.drop p.cursor).headD ⟨"", 0, ""⟩).file,
               line := ((p.tokens.drop p.cursor).headD ⟨"", 0, ""⟩).line },
             { p with cursor := p.tokens.length }))
    ∧ (next fs fuel p = .error .eof ↔ p.cursor = p.tokens.length) := by
  obtain ⟨n, rfl⟩ : ∃ k, fuel = k + 1 := Nat.exists_eq_succ_of_ne_zero (by omega)
  constructor
  · intro hord h
    have hne : p.cursor ≠ p.tokens.length := by omega
    simp only [next]
    rw [if_neg hne, dif_pos h]
    rw [nextLoop_plain fs n p _ (by omega) (by omega) hord]
    have hdrop : p.tokens.drop p.cursor =
        p.tokens[p.cursor] :: p.tokens.drop (p.cursor + 1) :=
      List.drop_eq_getElem_cons h
    rw [hdrop]
    simp only [List.headD_cons, List.nil_append, List.map_cons]
  · constructor
    · intro h
      by_cases hc : p.cursor = p.tokens.length
      · exact hc
      · exfalso
        simp only [next] at h
        rw [if_neg hc] at h
        by_cases h2 : p.cursor < p.tokens.length
        · rw [dif_pos h2] at h
          exact nextLoop_ne_eof fs n _ _ h
        · rw [dif_neg h2] at h
          simp at h
    · intro hc
      simp only [next]
      rw [if_pos hc]

/-- C9 witness: two plain tokens from cursor 0 are collected as one final
directive; and `next` at an exhausted cursor is exactly the EOF case. -/
theorem c9_eof_mid_directive_witness :
    (next [] 10 { tokens := [⟨"f", 1, "a"⟩, ⟨"f", 1, "b"⟩], cursor := 0 } =
      .ok ({ params := ["a", "b"], block := [], file := "f", line := 1 },
           { tokens := [⟨"f", 1, "a"⟩, ⟨"f", 1, "b"⟩], cursor := 2 })) ∧
    (next [] 10 { tokens := [⟨"f", 1, "a"⟩, ⟨"f", 1, "b"⟩], cursor := 0 } =
        .error .eof ↔ (0 : Nat) = 2) := by
  have h := c9_eof_mid_directive []
    { tokens := [⟨"f", 1, "a"⟩, ⟨"f", 1, "b"⟩], cursor := 0 } 10 (by decide)
  exact ⟨h.1 (by decide) (by decide), h.2⟩

/-- C1 counterexample: the claim predicts that the splice removes exactly the
two tokens `include` and `f.conf` (indices 2 and 3; cursor at 3), leaving
every other token — including the `;` at index 4 — in place, which with no
matched files would give `take 2 ++ [] ++ drop 4` (a list still containing
that `;`).  The code (parse.go:188-189) slices `[:cursor-1]` and
`[cursor+2:]`, also removing the token at index 4. -/
theorem c1_splice_counterexample :
    doInclude []
        { tokens := [⟨"nginx.conf", 1, "a"⟩, ⟨"nginx.conf", 1, ";"⟩,
                     ⟨"nginx.conf", 1, "include"⟩, ⟨"nginx.conf", 1, "f.conf"⟩,
                     ⟨"nginx.conf", 1, ";"⟩, ⟨"nginx.conf", 1, "b"⟩,
                     ⟨"nginx.conf", 1, ";"⟩],
          cursor := 3 } =
      .ok { tokens := [⟨"nginx.conf", 1, "a"⟩, ⟨"nginx.conf", 1, ";"⟩,
                       ⟨"nginx.conf", 1, "b"⟩, ⟨"nginx.conf", 1, ";"⟩],
            cursor := 2 } ∧
    ([⟨"nginx.conf", 1, "a"⟩, ⟨"nginx.conf", 1, ";"⟩, ⟨"nginx.conf", 1, "b"⟩,
      ⟨"nginx.conf", 1, ";"⟩] : List token) ≠
      [⟨"nginx.conf", 1, "a"⟩, ⟨"nginx.conf", 1, ";"⟩, ⟨"nginx.conf", 1, ";"⟩,
       ⟨"nginx.conf", 1, "b"⟩, ⟨"nginx.conf", 1, ";"⟩] :=
  ⟨by rfl, by decide⟩

/-- C1 amended: whenever `doInclude` succeeds, the splice removes exactly
*three* consecutive tokens — the `include` directive-name token, its
path-argument token, and the token immediately following the argument (the
statement's terminator) — replacing them with the imported sequence and
leaving every token before and after those three present, unchanged and in
order, with the cursor rewound to the first imported position. -/
theorem c1_splice_amended (fs : FS) (p q : nginxParser)
    (h : doInclude fs p = .ok q) :
    ∃ imported, q.tokens = p.tokens.take (p.cursor - 1) ++ imported ++
        p.tokens.drop (p.cursor + 2) ∧ q.cursor = p.cursor - 1 := by
  simp only [doInclude] at h
  split at h
  · split at h
    · simp at h
    · split at h
      · simp at h
      · split at h
        · simp at h
        · split at h
          · simp at h
          · rw [Except.ok.injEq] at h
            subst h
            exact ⟨_, rfl, rfl⟩
  · simp at h

/-- C1 witness: the amended splice shape at the concrete seven-token input. -/
theorem c1_splice_witness :
    ∃ imported,
      ([⟨"nginx.conf", 1, "a"⟩, ⟨"nginx.conf", 1, ";"⟩, ⟨"nginx.conf", 1, "b"⟩,
        ⟨"nginx.conf", 1, ";"⟩] : List token) =
        [⟨"nginx.conf", 1, "a"⟩, ⟨"nginx.conf", 1, ";"⟩,
         ⟨"nginx.conf", 1, "include"⟩, ⟨"nginx.conf", 1, "f.conf"⟩,
         ⟨"nginx.conf", 1, ";"⟩, ⟨"nginx.conf", 1, "b"⟩,
         ⟨"nginx.conf", 1, ";"⟩].take (3 - 1) ++ imported ++
        [⟨"nginx.conf", 1, "a"⟩, ⟨"nginx.conf", 1, ";"⟩,
         ⟨"nginx.conf", 1, "include"⟩, ⟨"nginx.conf", 1, "f.conf"⟩,
         ⟨"nginx.conf", 1, ";"⟩, ⟨"nginx.conf", 1, "b"⟩,
         ⟨"nginx.conf", 1, ";"⟩].drop (3 + 2) ∧ (2 : Nat) = 3 - 1 :=
  c1_splice_amended []
    { tokens := [⟨"nginx.conf", 1, "a"⟩, ⟨"nginx.conf", 1, ";"⟩,
                 ⟨"nginx.conf", 1, "include"⟩, ⟨"nginx.conf", 1, "f.conf"⟩,
                 ⟨"nginx.conf", 1, ";"⟩, ⟨"nginx.conf", 1, "b"⟩,
                 ⟨"nginx.conf", 1, ";"⟩],
      cursor := 3 }
    { tokens := [⟨"nginx.conf", 1, "a"⟩, ⟨"nginx.conf", 1, ";"⟩,
                 ⟨"nginx.conf", 1, "b"⟩, ⟨"nginx.conf", 1, ";"⟩],
      cursor := 2 }
    (by rfl)

/-- C4 counterexample: the claim says an argument is rejected only when a
`[`/`]` character class is *combined with other wildcards*.  The argument
`x[a]y` has zero `*` and zero `?` wildcards, yet the code rejects it with the
pattern error, because the check (parse.go:135-136) only tests that both `[`
and `]` occur. -/
theorem c4_bracket_counterexample :
    doInclude []
        { tokens := [⟨"nginx.conf", 1, "include"⟩, ⟨"nginx.conf", 1, "x[a]y"⟩],
          cursor := 1 } = .error (.patternErr "x[a]y") ∧
    countCh "x[a]y" '*' = 0 ∧ countCh "x[a]y" '?' = 0 :=
  ⟨by rfl, by decide, by decide⟩

/-- C4 amended: `doInclude` rejects the cleaned include argument with the
pattern error if and only if the argument has more than one `*`, more than
one `?`, or contains both a `[` and a `]` character — regardless of any other
wildcard; any other argument passes the pattern check. -/
theorem c4_reject_iff (fs : FS) (p : nginxParser) (h : p.cursor < p.tokens.length) :
    (doInclude fs p = .error (.patternErr (clean (p.tokens[p.cursor]).text)) ↔
      (1 < countCh (clean (p.tokens[p.cursor]).text) '*' ∨
       1 < countCh (clean (p.tokens[p.cursor]).text) '?' ∨
       (containsCh (clean (p.tokens[p.cursor]).text) '[' = true ∧
        containsCh (clean (p.tokens[p.cursor]).text) ']' = true))) := by
  have hwr : wildcardReject (clean (p.tokens[p.cursor]).text) = true ↔
      (1 < countCh (clean (p.tokens[p.cursor]).text) '*' ∨
       1 < countCh (clean (p.tokens[p.cursor]).text) '?' ∨
       (containsCh (clean (p.tokens[p.cursor]).text) '[' = true ∧
        containsCh (clean (p.tokens[p.cursor]).text) ']' = true)) := by
    simp only [wildcardReject, Bool.or_eq_true, decide_eq_true_eq, Bool.and_eq_true]
    rw [or_assoc]
  constructor
  · intro hd
    by_cases hw : wildcardReject (clean (p.tokens[p.cursor]).text) = true
    · exact hwr.mp hw
    · exfalso
      simp only [doInclude] at hd
      rw [dif_pos h, if_neg hw] at hd
      split at hd
      · simp at hd
      · split at hd
        · rename_i e' he'
          obtain ⟨f0, hf0⟩ := importAll_error fs _ e' he'
          rw [hf0] at hd
          simp at hd
        · split at hd <;> simp at hd
  · intro hrhs
    simp only [doInclude]
    rw [dif_pos h, if_pos (hwr.mpr hrhs)]

/-- C4 witness: the amended characterization at a double-`*` argument. -/
theorem c4_reject_iff_witness :
    (doInclude [] { tokens := [⟨"nginx.conf", 1, "include"⟩, ⟨"nginx.conf", 1, "a*b*"⟩],
                    cursor := 1 } = .error (.patternErr "a*b*") ↔
      (1 < countCh "a*b*" '*' ∨ 1 < countCh "a*b*" '?' ∨
       (containsCh "a*b*" '[' = true ∧ containsCh "a*b*" ']' = true))) :=
  c4_reject_iff []
    { tokens := [⟨"nginx.conf", 1, "include"⟩, ⟨"nginx.conf", 1, "a*b*"⟩],
      cursor := 1 } (by decide)

/-- C3 counterexample: the claim says an include argument naming a nonexistent
file (no absolute match, no standard filename, no subdirectory match) makes
the parse fail with an import error and return no tree.  On the empty
filesystem, `include missing.conf; a;` resolves to zero files, `doInclude`
returns no error, the include statement is spliced away, and the parse
returns a directive tree. -/
theorem c3_missing_include_counterexample :
    parse 10 [] (tokenize "include missing.conf; a;") =
      .ok [{ params := ["a"], block := [], file := "nginx.conf", line := 1 }] ∧
    ∀ e : PErr, parse 10 [] (tokenize "include missing.conf; a;") ≠ .error e := by
  have h1 : parse 10 [] (tokenize "include missing.conf; a;") =
      .ok [{ params := ["a"], block := [], file := "nginx.conf", line := 1 }] := by rfl
  exact ⟨h1, fun e h => Except.noConfusion (h1.symm.trans h)⟩

/-- C3 amended: an include argument that resolves to no file at all — the
direct glob *succeeds with no matches* (which covers the absolute case), it
equals no standard top-level configuration filename, and every subdirectory
glob under the configuration root *succeeds with no matches* — produces *no*
error: `doInclude` succeeds, removing the include statement's three tokens
and splicing in nothing.  (A glob that instead *fails* — a malformed pattern
reaching `filepath.Glob`, e.g. an unterminated `[` class against an entry
sharing its literal prefix — is a different outcome: that error is propagated
by `doInclude`, parse.go:143-145 and 170-172.  An ImportError arises only
when a *resolved* path, for example a standard filename resolved without an
existence check, cannot be opened.) -/
theorem c3_unresolved_include_no_error (fs : FS) (p : nginxParser) (arg : String)
    (h : p.cursor < p.tokens.length)
    (harg : arg = clean (p.tokens[p.cursor]).text)
    (hw : wildcardReject arg = false)
    (hstd : arg ∉ nginxStdConfs)
    (habs : glob fs arg = .ok [])
    (hsub : ∀ d ∈ nginxConfDirs,
      glob fs (clean (joinPath3 nginxConfRoot d arg)) = .ok [])
    (hc1 : 1 ≤ p.cursor) (hc2 : p.cursor + 2 ≤ p.tokens.length) :
    doInclude fs p =
      .ok { tokens := p.tokens.take (p.cursor - 1) ++ p.tokens.drop (p.cursor + 2),
            cursor := p.cursor - 1 } := by
  have hsubg : ∀ (l : List String),
      (∀ d ∈ l, glob fs (clean (joinPath3 nginxConfRoot d arg)) = .ok []) →
      subdirGlobs fs arg l = .ok [] := by
    intro l
    induction l with
    | nil => intro _; rfl
    | cons v rest ih =>
      intro hl
      simp only [subdirGlobs]
      rw [hl v (List.mem_cons_self v rest),
        ih (fun d hd => hl d (List.mem_cons_of_mem v hd))]
      simp
  have hres : resolveIncludeFiles fs arg = .ok [] := by
    have habs2 : (if isAbs arg then glob fs arg else .ok []) =
        .ok ([] : List String) := by
      split
      · exact habs
      · rfl
    have hfind : nginxStdConfs.find? (fun v => v == arg) = none := by
      rw [List.find?_eq_none]
      intro x hx
      simp only [beq_iff_eq]
      intro hxa
      exact hstd (hxa ▸ hx)
    have hsubm : subdirMatches fs arg = .ok [] := hsubg nginxConfDirs hsub
    simp only [resolveIncludeFiles, habs2, List.filter_nil, hfind, hsubm]
    simp
  subst harg
  simp only [doInclude]
  rw [dif_pos h]
  simp only [hw, Bool.false_eq_true, if_false, hres, importAll]
  rw [if_neg (by omega)]
  simp

/-- C3 witness: the amended no-error resolution at a concrete missing file. -/
theorem c3_unresolved_include_no_error_witness :
    doInclude [] { tokens := [⟨"nginx.conf", 1, "include"⟩,
                              ⟨"nginx.conf", 1, "missing.conf"⟩,
                              ⟨"nginx.conf", 1, ";"⟩], cursor := 1 } =
      .ok { tokens := [], cursor := 0 } :=
  c3_unresolved_include_no_error []
    { tokens := [⟨"nginx.conf", 1, "include"⟩, ⟨"nginx.conf", 1, "missing.conf"⟩,
                 ⟨"nginx.conf", 1, ";"⟩], cursor := 1 }
    "missing.conf" (by decide) (by decide) (by decide) (by decide) (by rfl)
    (by decide) (by decide) (by decide)

/-- C6 counterexample: the claim says an argument exactly equal to a standard
filename resolves to `root/<name>` alone, the subdirectory search being
performed only for non-standard arguments.  With `conf.d/mime.types` present
on disk, the argument `mime.types` resolves to *both* `/etc/nginx/mime.types`
(the standard entry, appended without an existence check) and
`/etc/nginx/conf.d/mime.types` (the subdirectory glob, which runs
unconditionally inside the fallback branch, parse.go:167-175). -/
theorem c6_std_subdir_counterexample :
    resolveIncludeFiles [("/etc/nginx/conf.d/mime.types", "x;")] "mime.types" =
      .ok ["/etc/nginx/mime.types", "/etc/nginx/conf.d/mime.types"] ∧
    resolveIncludeFiles [("/etc/nginx/conf.d/mime.types", "x;")] "mime.types" ≠
      .ok ["/etc/nginx/mime.types"] :=
  ⟨by rfl, by decide⟩

/-- C6 amended: when the (non-absolute) argument equals a standard top-level
configuration filename, the resolver still performs the per-subdirectory glob
search and produces `root/<name>` *followed by* the accumulated subdirectory
glob matches, in subdirectory order (a subdirectory glob failure propagating
unchanged) — never `root/<name>` alone when a subdirectory also matches. -/
theorem c6_std_resolution_amended (fs : FS) (arg : String)
    (hstd : arg ∈ nginxStdConfs) (habs : isAbs arg = false) :
    resolveIncludeFiles fs arg =
      (subdirMatches fs arg).map
        (fun subs => joinPath nginxConfRoot arg :: subs) := by
  have hfind : nginxStdConfs.find? (fun v => v == arg) = some arg := by
    simp only [nginxStdConfs, List.mem_cons, List.not_mem_nil, or_false] at hstd
    rcases hstd with rfl | rfl | rfl | rfl | rfl | rfl | rfl | rfl | rfl | rfl <;> decide
  simp only [resolveIncludeFiles, habs, Bool.false_eq_true, if_false, hfind]
  rcases hsm : subdirMatches fs arg with msg | subs <;>
    simp [hsm, Except.map]

/-- C6 witness: the amended resolution shape for `mime.types` on an empty
filesystem. -/
theorem c6_std_resolution_witness :
    resolveIncludeFiles [] "mime.types" =
      (subdirMatches [] "mime.types").map
        (fun subs => joinPath nginxConfRoot "mime.types" :: subs) :=
  c6_std_resolution_amended [] "mime.types" (by decide) (by decide)

/-- C7 counterexample: the claim predicts that for `a; include f.conf; b;`
(with the resolved file lexing to `c;`) the middle directive's `file` field is
the four-character string `f.conf`.  The code tags imported tokens with the
*resolved path* (`allTokens` in `doSingleInclude`, parse.go:217), here
`/etc/nginx/conf.d/f.conf`, which is never equal to `f.conf` (resolution
always prefixes the configuration root). -/
theorem c7_include_file_tag_counterexample :
    parse 20 [("/etc/nginx/conf.d/f.conf", "c;")] (tokenize "a; include f.conf; b;") =
      .ok [{ params := ["a"], block := [], file := "nginx.conf", line := 1 },
           { params := ["c"], block := [], file := "/etc/nginx/conf.d/f.conf", line := 1 },
           { params := ["b"], block := [], file := "nginx.conf", line := 1 }] ∧
    ("/etc/nginx/conf.d/f.conf" : String) ≠ "f.conf" :=
  ⟨by rfl, by decide⟩

/-- C7 amended: for source `a; include f.conf; b;` where `f.conf` is resolved
via the `conf.d` subdirectory and lexes to `c;`, the parsed root sequence is
exactly `[a, c, b]`; directive `c` carries the resolved path
`/etc/nginx/conf.d/f.conf` of the included file as its `file` field (not the
bare argument `f.conf`), and `a`/`b` keep the lexer's fixed top-level source
name `nginx.conf`. -/
theorem c7_include_file_tag_amended :
    parse 20 [("/etc/nginx/conf.d/f.conf", "c;")] (tokenize "a; include f.conf; b;") =
      .ok [{ params := ["a"], block := [], file := "nginx.conf", line := 1 },
           { params := ["c"], block := [], file := "/etc/nginx/conf.d/f.conf", line := 1 },
           { params := ["b"], block := [], file := "nginx.conf", line := 1 }] := by
  rfl

end NginxConf
